import Mathlib

/-!
Shallow embedding of the core scheduling/registry/matching logic of the
laboratory automation platform backend (`laf/core/service_registry.py`,
`laf/core/capability_matcher.py`, `laf/core/workflow_engine.py`,
`laf/core/task_scheduler.py`, `laf/models/enhanced_models.py`), together
with theorems settling the specification claims about that logic.

Numeric modelling: Python floats are modelled as rationals (`ℚ`), integer
columns as `ℤ`/`ℕ`.  Database lookups that feed a computation (performance
metrics, user preferences, the queue table) are passed to the embedded
function as explicit arguments holding exactly the data the Python code
reads.
-/

namespace LafCore

/-! ## Data model (`enhanced_models.py`) -/

/-- `ServiceStatus` enum. -/
inductive ServiceStatus where
  | ONLINE
  | OFFLINE
  | BUSY
  | MAINTENANCE
  | ERROR
deriving DecidableEq, Repr

/-- `QueueStatus` enum. -/
inductive QueueStatus where
  | PENDING
  | ASSIGNED
  | RUNNING
  | COMPLETED
  | FAILED
  | CANCELLED
deriving DecidableEq, Repr

/-- The `ServiceV2` row, restricted to the fields the embedded functions read.
`capabilities` holds the keys of the capabilities JSONB map.
`success_rate`, `uptime_percentage` and `avg_duration` are the fields of the
latest `ServicePerformanceMetric` row of this service (`none` when absent),
and `recent_heartbeat` records whether `last_heartbeat` is within five
minutes of now — these are the database inputs of `_calculate_confidence`
and `_response_time_selection`. -/
structure ServiceV2 where
  id : ℕ
  name : String
  status : ServiceStatus
  max_concurrent_tasks : ℤ
  current_load : ℤ
  priority : ℤ
  capabilities : List String
  cost_per_hour : Option ℚ
  success_rate : Option ℚ
  uptime_percentage : Option ℚ
  recent_heartbeat : Bool
  avg_duration : Option ℚ
deriving DecidableEq, Repr

/-- `ServiceV2.is_available`. -/
def ServiceV2.is_available (s : ServiceV2) : Bool :=
  s.status = ServiceStatus.ONLINE && s.current_load < s.max_concurrent_tasks

/-- `ServiceV2.get_load_percentage`. -/
def ServiceV2.get_load_percentage (s : ServiceV2) : ℚ :=
  if s.max_concurrent_tasks = 0 then 0
  else ((s.current_load : ℚ) / (s.max_concurrent_tasks : ℚ)) * 100

/-! ## Service registry (`service_registry.py`) -/

/-- `ServiceRegistry.update_service_load`: the new load is
`max(0, current_load + load_change)`; the status is set to `BUSY` when the
new load reaches `max_concurrent_tasks`, and set back to `ONLINE` when the
service was `BUSY` and the new load is below `max_concurrent_tasks`. -/
def update_service_load (s : ServiceV2) (load_change : ℤ) : ServiceV2 :=
  let newLoad := max 0 (s.current_load + load_change)
  let newStatus :=
    if newLoad ≥ s.max_concurrent_tasks then ServiceStatus.BUSY
    else if s.status = ServiceStatus.BUSY ∧ newLoad < s.max_concurrent_tasks then
      ServiceStatus.ONLINE
    else s.status
  { s with current_load := newLoad, status := newStatus }

/-- `ServiceRegistry._calculate_capability_score` (the registry's own scorer,
used by the `CAPABILITY_WEIGHTED` load-balancing strategy): one point per
required capability present divided by the number of required capabilities,
plus half a point per optional capability present divided by the number of
optional capabilities. -/
def calculate_capability_score (s : ServiceV2) (required optional : List String) : ℚ :=
  let requiredScoreRaw : ℚ := ((required.filter (fun c => c ∈ s.capabilities)).length : ℚ)
  let requiredScore := if required.length > 0 then requiredScoreRaw / (required.length : ℚ)
    else requiredScoreRaw
  let optionalScoreRaw : ℚ :=
    (1 / 2) * ((optional.filter (fun c => c ∈ s.capabilities)).length : ℚ)
  let optionalScore := if optional.length > 0 then optionalScoreRaw / (optional.length : ℚ)
    else optionalScoreRaw
  requiredScore + optionalScore

/-- The key of the round-robin counter table: the sorted tuple of candidate
service ids (`tuple(sorted(service_ids))`). -/
def serviceKey (services : List ServiceV2) : List ℕ :=
  (services.map ServiceV2.id).mergeSort (fun a b => decide (a ≤ b))

/-- `ServiceRegistry._round_robin_selection`, with the mutable
`_round_robin_counters` dict made an explicit argument: looks up the counter
for the sorted candidate-id key (defaulting to `0`), selects the service at
index `counter % len(services)`, and increments the counter.  Returns the
selection together with the updated counter table. -/
def round_robin_selection (counters : List ℕ → Option ℕ) (services : List ServiceV2) :
    Option ServiceV2 × (List ℕ → Option ℕ) :=
  let key := serviceKey services
  let c := (counters key).getD 0
  (services.get? (c % services.length),
   fun k => if k = key then some (c + 1) else counters k)

/-- `n` successive calls of `_round_robin_selection` on the same candidate
list, threading the counter table. -/
def rr_run (counters : List ℕ → Option ℕ) (services : List ServiceV2) :
    ℕ → List (Option ServiceV2) × (List ℕ → Option ℕ)
  | 0 => ([], counters)
  | n + 1 =>
    let step := round_robin_selection counters services
    let rest := rr_run step.2 services n
    (step.1 :: rest.1, rest.2)

/-- Python's `min(list, key=f)`: the first element of the list attaining the
minimal key (the running best is replaced only on a strictly smaller key). -/
def minBy {α β : Type} [LinearOrder β] (f : α → β) : α → List α → α
  | a, [] => a
  | a, x :: xs => if f x < f a then minBy f x xs else minBy f a xs

/-- Python's `max(list, key=f)`: the first element of the list attaining the
maximal key. -/
def maxBy {α β : Type} [LinearOrder β] (f : α → β) : α → List α → α
  | a, [] => a
  | a, x :: xs => if f x > f a then maxBy f x xs else maxBy f a xs

/-- The `task_context` dict passed to `load_balance_selection`.
A field is `none` when the corresponding key is absent. -/
structure TaskContext where
  required_capabilities : Option (List String)
  optional_capabilities : List String
  user_id : Option String

/-- The average-duration key used by `_response_time_selection`: the latest
metric's `average_duration_seconds`, or `float("inf")` when the service has
no performance history. -/
def responseTimeKey (s : ServiceV2) : WithTop ℚ :=
  match s.avg_duration with
  | some d => (d : WithTop ℚ)
  | none => ⊤

/-- `ServiceRegistry._capability_weighted_selection`. -/
def capability_weighted_selection (a : ServiceV2) (rest : List ServiceV2)
    (ctx : Option TaskContext) : ServiceV2 :=
  match ctx with
  | none => a
  | some c =>
    match c.required_capabilities with
    | none => a
    | some req =>
      maxBy (fun s => calculate_capability_score s req c.optional_capabilities) a rest

/-- The first preferred service id that resolves to a candidate, looked up in
the `{s.id: s}` dict built from the candidate list (later duplicates win, as
in a Python dict comprehension). -/
def firstPreferred (ids : List ℕ) (services : List ServiceV2) : Option ServiceV2 :=
  ids.findSome? (fun i => services.reverse.find? (fun s => s.id = i))

/-- `ServiceRegistry._user_preference_selection`, with the
`UserServicePreference` row's `preferred_service_ids` passed as `prefs`
(`none` when no preference row matches the query). -/
def user_preference_selection (a : ServiceV2) (rest : List ServiceV2)
    (ctx : Option TaskContext) (prefs : Option (List ℕ)) : ServiceV2 :=
  match ctx with
  | none => a
  | some c =>
    match c.user_id with
    | none => a
    | some _ =>
      match prefs with
      | some ids =>
        if ids = [] then minBy ServiceV2.get_load_percentage a rest
        else
          match firstPreferred ids (a :: rest) with
          | some s => s
          | none => minBy ServiceV2.get_load_percentage a rest
      | none => minBy ServiceV2.get_load_percentage a rest

/-- `LoadBalancingStrategy` enum. -/
inductive LoadBalancingStrategy where
  | ROUND_ROBIN
  | LEAST_LOADED
  | RESPONSE_TIME
  | CAPABILITY_WEIGHTED
  | COST_OPTIMIZED
  | USER_PREFERENCE
deriving DecidableEq, Repr

/-- `ServiceRegistry.load_balance_selection`: `None` on an empty candidate
list, `None` when no candidate `is_available()`, otherwise dispatch on the
strategy over the available candidates.  The round-robin counter table and
the user-preference row are explicit arguments. -/
def load_balance_selection (counters : List ℕ → Option ℕ)
    (candidates : List ServiceV2) (strategy : LoadBalancingStrategy)
    (ctx : Option TaskContext) (prefs : Option (List ℕ)) : Option ServiceV2 :=
  if candidates = [] then none
  else
    match candidates.filter ServiceV2.is_available with
    | [] => none
    | a :: rest =>
      some (match strategy with
        | LoadBalancingStrategy.ROUND_ROBIN =>
          ((round_robin_selection counters (a :: rest)).1).getD a
        | LoadBalancingStrategy.LEAST_LOADED =>
          minBy ServiceV2.get_load_percentage a rest
        | LoadBalancingStrategy.RESPONSE_TIME =>
          minBy responseTimeKey a rest
        | LoadBalancingStrategy.CAPABILITY_WEIGHTED =>
          capability_weighted_selection a rest ctx
        | LoadBalancingStrategy.COST_OPTIMIZED =>
          minBy (fun s => s.cost_per_hour.getD 0) a rest
        | LoadBalancingStrategy.USER_PREFERENCE =>
          user_preference_selection a rest ctx prefs)

/-! ## Capability matcher (`capability_matcher.py`) -/

/-- `MatchQuality` enum. -/
inductive MatchQuality where
  | PERFECT
  | EXCELLENT
  | GOOD
  | ADEQUATE
  | POOR
  | INCOMPATIBLE
deriving DecidableEq, Repr

/-- `TaskRequirements` dataclass (fields used by the matcher). -/
structure TaskRequirements where
  task_type : String
  required_capabilities : List String
  optional_capabilities : List String

/-- `MatchScore` dataclass (fields used by the claims). -/
structure MatchScore where
  service_id : ℕ
  service_name : String
  quality : MatchQuality
  score : ℚ
  required_match_rate : ℚ
  optional_match_rate : ℚ
  confidence : ℚ
deriving DecidableEq, Repr

/-- The `CapabilityMatcher.capability_weights` dict: the hand-tuned
capability-importance table. -/
def capability_weights_table : List (String × ℚ) :=
  [("hplc", 1), ("gc", 1), ("ms", 1), ("uv_detector", 4/5),
   ("fluorescence_detector", 4/5), ("autosampler", 7/10), ("column_oven", 3/5),
   ("balance", 1), ("pipette", 9/10), ("vortex", 3/5), ("centrifuge", 7/10),
   ("heating", 7/10), ("cooling", 7/10), ("filtration", 4/5),
   ("ph_measurement", 4/5), ("data_processing", 1/2), ("barcode_reading", 2/5),
   ("temperature_control", 3/5), ("pressure_monitoring", 1/2)]

/-- `self.capability_weights.get(cap, 0.5)`: table lookup with default
weight `0.5` for capabilities absent from the table. -/
def capability_weights (cap : String) : ℚ :=
  match capability_weights_table.find? (fun p => p.1 = cap) with
  | some p => p.2
  | none => 1/2

/-- `CapabilityMatcher._apply_capability_weights`:
`weight_factor = Σ weight(matched) / Σ weight(requested)` (or `1.0` when the
total weight is not positive), applied multiplicatively to the base score;
an empty requested set returns the base score unchanged. -/
def apply_capability_weights (service_caps task_caps : Finset String) (base_score : ℚ) : ℚ :=
  if task_caps = ∅ then base_score
  else
    let total_weight := task_caps.sum capability_weights
    let matched_weight := (task_caps.filter (fun c => c ∈ service_caps)).sum capability_weights
    let weight_factor := if total_weight > 0 then matched_weight / total_weight else 1
    base_score * weight_factor

/-- `CapabilityMatcher._determine_match_quality`. -/
def determine_match_quality (required_rate optional_rate : ℚ) : MatchQuality :=
  if required_rate < 4/5 then MatchQuality.INCOMPATIBLE
  else if required_rate < 1 then MatchQuality.POOR
  else if optional_rate = 1 then MatchQuality.PERFECT
  else if optional_rate ≥ 4/5 then MatchQuality.EXCELLENT
  else if optional_rate ≥ 1/2 then MatchQuality.GOOD
  else MatchQuality.ADEQUATE

/-- `CapabilityMatcher._calculate_confidence`: base `0.7`, plus
`success_rate · 0.2` and `uptime_percentage · 0.1` from the latest
performance metric when present, plus `0.1` for a heartbeat within the last
five minutes, capped at `1.0`. -/
def calculate_confidence (s : ServiceV2) : ℚ :=
  let c : ℚ := 7/10
  let c := c + (s.success_rate.getD 0) * (1/5)
  let c := c + (s.uptime_percentage.getD 0) * (1/10)
  let c := c + (if s.recent_heartbeat then 1/10 else 0)
  min c 1

/-- The match-rate computation shared by both rates of
`CapabilityMatcher._calculate_match_score`:
`len(caps ∩ service_caps) / len(caps)` with `1.0` for an empty `caps`. -/
def match_rate (caps service_caps : Finset String) : ℚ :=
  if caps = ∅ then 1
  else ((caps ∩ service_caps).card : ℚ) / (caps.card : ℚ)

/-- `CapabilityMatcher._calculate_match_score`: required/optional match
rates (each `1.0` on an empty requirement set), base score
`0.8·required + 0.2·optional`, capability weighting over
`required ∪ optional`, quality tiering and confidence. -/
def calculate_match_score (s : ServiceV2) (requirements : TaskRequirements) : MatchScore :=
  let service_caps := s.capabilities.toFinset
  let required_caps := requirements.required_capabilities.toFinset
  let optional_caps := requirements.optional_capabilities.toFinset
  let required_match_rate : ℚ := match_rate required_caps service_caps
  let optional_match_rate : ℚ := match_rate optional_caps service_caps
  let base_score := required_match_rate * (4/5) + optional_match_rate * (1/5)
  let weighted_score :=
    apply_capability_weights service_caps (required_caps ∪ optional_caps) base_score
  { service_id := s.id
    service_name := s.name
    quality := determine_match_quality required_match_rate optional_match_rate
    score := weighted_score
    required_match_rate := required_match_rate
    optional_match_rate := optional_match_rate
    confidence := calculate_confidence s }

/-- The comparison used by `match_scores.sort(key=(score, confidence),
reverse=True)`: `a` may precede `b` iff `(a.score, a.confidence)` is
lexicographically at least `(b.score, b.confidence)`. -/
def matchScoreDescLe (a b : MatchScore) : Bool :=
  decide (b.score < a.score ∨ (b.score = a.score ∧ b.confidence ≤ a.confidence))

/-- `CapabilityMatcher.match_capabilities`: score every candidate, then a
stable sort descending by `(score, confidence)`. -/
def match_capabilities (requirements : TaskRequirements)
    (available_services : List ServiceV2) : List MatchScore :=
  (available_services.map (fun s => calculate_match_score s requirements)).mergeSort
    matchScoreDescLe

/-- Modelled from the spec (for comparison with the code's score): the claim's
score formula `(0.8·required_rate + 0.2·optional_rate) ·
(Σ weight(requested ∩ service) / Σ weight(requested))`, with weight `0.5` for
unknown capabilities, match rate `1.0` on an empty requirement set, and
weight factor `1` on an empty requested set. -/
def specScore (s : ServiceV2) (requirements : TaskRequirements) : ℚ :=
  let service_caps := s.capabilities.toFinset
  let required_caps := requirements.required_capabilities.toFinset
  let optional_caps := requirements.optional_capabilities.toFinset
  let requested := required_caps ∪ optional_caps
  let required_rate : ℚ := match_rate required_caps service_caps
  let optional_rate : ℚ := match_rate optional_caps service_caps
  let weight_factor : ℚ :=
    if requested = ∅ then 1
    else ((requested.filter (fun c => c ∈ service_caps)).sum capability_weights) /
      (requested.sum capability_weights)
  ((4/5) * required_rate + (1/5) * optional_rate) * weight_factor

/-! ## Workflow engine (`workflow_engine.py`) -/

/-- `RecoveryStrategy` enum. -/
inductive RecoveryStrategy where
  | FAIL_FAST
  | CONTINUE
  | RETRY
  | FALLBACK
deriving DecidableEq, Repr

/-- `RecoveryAction` dataclass. -/
structure RecoveryAction where
  action_type : RecoveryStrategy
  alternative_service_id : Option ℕ := none
  retry_count : ℕ := 0
  delay_seconds : ℕ := 0
deriving DecidableEq, Repr

/-- `WorkflowEngine.max_retries`. -/
def max_retries : ℕ := 3

/-- `WorkflowEngine.retry_delay_base` (seconds). -/
def retry_delay_base : ℕ := 30

/-- The `FALLBACK` tail of `WorkflowEngine.handle_service_failure`:
`available_services` is the registry's available list with the failed
service removed, and `resolved_alternative` is the result of
`task_scheduler.resolve_task_service_mapping` on it.  If an alternative is
found the action is `FALLBACK` with its id, otherwise `CONTINUE`. -/
def fallback_branch (available_services : List ℕ) (resolved_alternative : Option ℕ) :
    RecoveryAction :=
  if available_services ≠ [] then
    match resolved_alternative with
    | some alt => { action_type := RecoveryStrategy.FALLBACK,
                    alternative_service_id := some alt }
    | none => { action_type := RecoveryStrategy.CONTINUE }
  else { action_type := RecoveryStrategy.CONTINUE }

/-- `WorkflowEngine.handle_service_failure`, with the queue entry's
`retry_count` (`none` when the task has no queue entry) and the fallback
inputs passed explicitly. -/
def handle_service_failure (strategy : RecoveryStrategy)
    (queue_entry_retry_count : Option ℕ) (available_services : List ℕ)
    (resolved_alternative : Option ℕ) : RecoveryAction :=
  match strategy with
  | RecoveryStrategy.FAIL_FAST => { action_type := RecoveryStrategy.FAIL_FAST }
  | RecoveryStrategy.RETRY =>
    match queue_entry_retry_count with
    | some r =>
      if r < max_retries then
        { action_type := RecoveryStrategy.RETRY
          retry_count := r + 1
          delay_seconds := retry_delay_base * 2 ^ r }
      else fallback_branch available_services resolved_alternative
    | none => fallback_branch available_services resolved_alternative
  | RecoveryStrategy.FALLBACK => fallback_branch available_services resolved_alternative
  | RecoveryStrategy.CONTINUE => { action_type := RecoveryStrategy.CONTINUE }

/-- `calculate_level` from
`WorkflowEngine._group_tasks_by_dependency_level`: level `0` for a task with
no (or an absent) dependency list, else `1 + max` of the prerequisite
levels.  The Python recursion carries no termination guard, so the embedding
takes explicit fuel; on acyclic inputs the result is fuel-independent once
the fuel exceeds the dependency depth. -/
def calculate_level (deps : ℕ → List ℕ) : ℕ → ℕ → ℕ
  | 0, _ => 0
  | fuel + 1, t =>
    match deps t with
    | [] => 0
    | d :: ds =>
      1 + ds.foldl (fun acc p => Nat.max acc (calculate_level deps fuel p))
        (calculate_level deps fuel d)

/-- `DepthBounded deps t n`: every dependency chain out of task `t` has
length under `n`.  This is the acyclicity bound under which the Python
recursion in `calculate_level` terminates. -/
inductive DepthBounded (deps : ℕ → List ℕ) : ℕ → ℕ → Prop where
  | mk (t n) : (∀ p ∈ deps t, DepthBounded deps p n) → DepthBounded deps t (n + 1)

/-- `WorkflowEngine._execute_sequential`, abstracted over the per-task
outcomes (`true` = `result['success']`, `false` = failure or exception):
count completions and failures in order, breaking after the first failure
under `FAIL_FAST`.  Returns `(completed, failed)`. -/
def execute_sequential (strategy : RecoveryStrategy) : List Bool → ℕ × ℕ
  | [] => (0, 0)
  | ok :: rest =>
    if ok then
      let r := execute_sequential strategy rest
      (r.1 + 1, r.2)
    else
      if strategy = RecoveryStrategy.FAIL_FAST then (0, 1)
      else
        let r := execute_sequential strategy rest
        (r.1, r.2 + 1)

/-- `WorkflowEngine._execute_parallel`, abstracted over the dependency
levels' per-task outcomes: each level is gathered in full, and under
`FAIL_FAST` a level containing a failure stops advancement to later levels.
Returns `(completed, failed)`. -/
def execute_parallel (strategy : RecoveryStrategy) : List (List Bool) → ℕ × ℕ
  | [] => (0, 0)
  | level :: rest =>
    let c := (level.filter (fun b => b)).length
    let f := (level.filter (fun b => !b)).length
    if strategy = RecoveryStrategy.FAIL_FAST ∧ f ≠ 0 then (c, f)
    else
      let r := execute_parallel strategy rest
      (c + r.1, f + r.2)

/-- A two-task dependency cycle (`task 1 ⇄ task 2`), the failing input of the
cyclic-graph claim. -/
def cyclicDeps : ℕ → List ℕ :=
  fun t => if t = 1 then [2] else if t = 2 then [1] else []

/-- A three-task chain (`task 0 → task 1 → task 2`), a concrete acyclic
dependency map for witnesses. -/
def chainDeps : ℕ → List ℕ :=
  fun t => if t = 1 then [0] else if t = 2 then [1] else []

/-! ## Task scheduler (`task_scheduler.py`) -/

/-- The `WorkflowExecutionQueue` row, restricted to the fields
`_calculate_queue_position` reads.  `created_at` is a timestamp modelled as a
natural number. -/
structure WorkflowExecutionQueue where
  id : ℕ
  assigned_service_id : ℕ
  priority : ℤ
  created_at : ℕ
  status : QueueStatus
deriving DecidableEq, Repr

/-- `TaskScheduler._calculate_queue_position`, with the queue table passed as
a list: one plus the number of pending entries on the same service whose
`(priority, created_at)` is strictly smaller lexicographically. -/
def calculate_queue_position (entries : List WorkflowExecutionQueue)
    (e : WorkflowExecutionQueue) : ℕ :=
  (entries.filter (fun x =>
    decide (x.assigned_service_id = e.assigned_service_id ∧
      x.status = QueueStatus.PENDING ∧
      (x.priority < e.priority ∨
        (x.priority = e.priority ∧ x.created_at < e.created_at))))).length + 1

/-- A baseline service record for concrete witnesses. -/
def sampleService : ServiceV2 :=
  { id := 1
    name := "hplc-instrument-1"
    status := ServiceStatus.ONLINE
    max_concurrent_tasks := 1
    current_load := 0
    priority := 5
    capabilities := []
    cost_per_hour := none
    success_rate := none
    uptime_percentage := none
    recent_heartbeat := false
    avg_duration := none }

/-! ## Theorems -/

theorem update_service_load_current_load (s : ServiceV2) (delta : ℤ) :
    (update_service_load s delta).current_load = max 0 (s.current_load + delta) := by
  simp [update_service_load]

theorem update_service_load_status_eq (s : ServiceV2) (delta : ℤ) :
    (update_service_load s delta).status =
      if max 0 (s.current_load + delta) ≥ s.max_concurrent_tasks then ServiceStatus.BUSY
      else if s.status = ServiceStatus.BUSY ∧
          max 0 (s.current_load + delta) < s.max_concurrent_tasks then ServiceStatus.ONLINE
      else s.status := by
  simp [update_service_load]

/-- Claim C1, counterexample: a service at capacity (`current_load = 1 =
max_concurrent_tasks`, so the claimed precondition holds) receives
`update_service_load` with `delta = 1`; the new load is `2`, exceeding
`max_concurrent_tasks = 1`, so the claimed upper bound fails. -/
theorem update_service_load_counterexample :
    0 ≤ ({ sampleService with current_load := 1 } : ServiceV2).current_load ∧
    ({ sampleService with current_load := 1 } : ServiceV2).current_load ≤
      ({ sampleService with current_load := 1 } : ServiceV2).max_concurrent_tasks ∧
    (update_service_load { sampleService with current_load := 1 } 1).current_load = 2 ∧
    ¬ ((update_service_load { sampleService with current_load := 1 } 1).current_load ≤
        (update_service_load { sampleService with current_load := 1 } 1).max_concurrent_tasks) := by
  refine ⟨by decide, by decide, ?_, ?_⟩ <;> simp [update_service_load, sampleService]

/-- Claim C1 (amended): `update_service_load` sets the load to
`max(0, old_load + delta)`, so `0 ≤ current_load` always holds afterwards,
but the load is *not* clamped at capacity: the upper bound
`current_load ≤ max_concurrent_tasks` is only preserved when
`old_load + delta ≤ max_concurrent_tasks`.  The status becomes `BUSY`
exactly when the new load reaches capacity, flips back to `ONLINE` when a
`BUSY` service drops below capacity, and is unchanged otherwise. -/
theorem update_service_load_spec (s : ServiceV2) (delta : ℤ) :
    (update_service_load s delta).current_load = max 0 (s.current_load + delta) ∧
    0 ≤ (update_service_load s delta).current_load ∧
    (s.current_load + delta ≤ s.max_concurrent_tasks → 0 ≤ s.max_concurrent_tasks →
      (update_service_load s delta).current_load ≤ s.max_concurrent_tasks) ∧
    ((update_service_load s delta).status = ServiceStatus.BUSY ↔
      s.max_concurrent_tasks ≤ (update_service_load s delta).current_load) ∧
    (s.status = ServiceStatus.BUSY →
      (update_service_load s delta).current_load < s.max_concurrent_tasks →
      (update_service_load s delta).status = ServiceStatus.ONLINE) ∧
    (s.status ≠ ServiceStatus.BUSY →
      (update_service_load s delta).current_load < s.max_concurrent_tasks →
      (update_service_load s delta).status = s.status) := by
  have hload := update_service_load_current_load s delta
  have hstat := update_service_load_status_eq s delta
  refine ⟨hload, ?_, ?_, ?_, ?_, ?_⟩
  · rw [hload]; exact le_max_left _ _
  · intro h1 h2; rw [hload]; omega
  · rw [hstat, hload]
    split_ifs with h1 h2
    · simp [ge_iff_le] at h1 ⊢; omega
    · simp only [ge_iff_le, not_le] at h1
      constructor
      · intro h; exact absurd h (by simp)
      · intro h; omega
    · simp only [ge_iff_le, not_le] at h1
      constructor
      · intro h
        exfalso
        rcases not_and_or.mp h2 with hb | hlt
        · exact hb h
        · exact hlt h1
      · intro h; omega
  · intro hb hlt
    rw [hload] at hlt
    rw [hstat]
    rw [if_neg (by omega), if_pos ⟨hb, hlt⟩]
  · intro hb hlt
    rw [hload] at hlt
    rw [hstat]
    rw [if_neg (by omega), if_neg (by intro h; exact hb h.1)]

/-- Witness for the amended C1 theorem at a concrete input: decrementing the
load of a busy service at capacity drops the load to `0` and flips the
status back to `ONLINE`. -/
theorem update_service_load_spec_witness :
    (update_service_load
        { sampleService with current_load := 1, status := ServiceStatus.BUSY }
        (-1)).current_load = 0 ∧
    (update_service_load
        { sampleService with current_load := 1, status := ServiceStatus.BUSY }
        (-1)).status = ServiceStatus.ONLINE := by
  have h := update_service_load_spec
    { sampleService with current_load := 1, status := ServiceStatus.BUSY } (-1)
  refine ⟨?_, ?_⟩
  · rw [h.1]; decide
  · exact h.2.2.2.2.1 rfl (by rw [h.1]; decide)

/-- Claim C4: with the `RETRY` strategy, a queue entry with
`retry_count = r < max_retries` yields a `RETRY` action carrying
`retry_count = r + 1` and exponential backoff
`delay_seconds = retry_delay_base · 2^r`; once `r ≥ max_retries` the result
is never another `RETRY` but the `FALLBACK` action (carrying the resolved
alternative) when one exists, else `CONTINUE`. -/
theorem handle_service_failure_retry_spec (r : ℕ) (available_services : List ℕ)
    (resolved_alternative : Option ℕ) :
    (r < max_retries →
      handle_service_failure RecoveryStrategy.RETRY (some r) available_services
          resolved_alternative =
        { action_type := RecoveryStrategy.RETRY
          retry_count := r + 1
          delay_seconds := retry_delay_base * 2 ^ r }) ∧
    (max_retries ≤ r →
      (handle_service_failure RecoveryStrategy.RETRY (some r) available_services
          resolved_alternative).action_type ≠ RecoveryStrategy.RETRY ∧
      ((available_services ≠ [] ∧ resolved_alternative.isSome ∧
        handle_service_failure RecoveryStrategy.RETRY (some r) available_services
            resolved_alternative =
          { action_type := RecoveryStrategy.FALLBACK
            alternative_service_id := resolved_alternative }) ∨
       (handle_service_failure RecoveryStrategy.RETRY (some r) available_services
          resolved_alternative).action_type = RecoveryStrategy.CONTINUE)) := by
  constructor
  · intro h
    simp [handle_service_failure, if_pos h]
  · intro h
    have hnot : ¬ r < max_retries := by omega
    simp only [handle_service_failure, if_neg hnot]
    constructor
    · unfold fallback_branch
      split_ifs with h1
      · cases resolved_alternative <;> simp
      · simp
    · unfold fallback_branch
      split_ifs with h1
      · cases resolved_alternative with
        | none => right; simp
        | some alt => left; exact ⟨h1, rfl, rfl⟩
      · right; simp

/-- Witness for C4 at concrete inputs: the third retry (`r = 2`) backs off
`30 · 2² = 120` seconds, and the fourth failure (`r = 3`) with an available
alternative yields a `FALLBACK` action. -/
theorem handle_service_failure_retry_spec_witness :
    handle_service_failure RecoveryStrategy.RETRY (some 2) [7] (some 7) =
      { action_type := RecoveryStrategy.RETRY, retry_count := 3, delay_seconds := 120 } ∧
    handle_service_failure RecoveryStrategy.RETRY (some 3) [7] (some 7) =
      { action_type := RecoveryStrategy.FALLBACK, alternative_service_id := some 7 } := by
  constructor
  · have h := (handle_service_failure_retry_spec 2 [7] (some 7)).1 (by decide)
    rw [h]; rfl
  · have h := (handle_service_failure_retry_spec 3 [7] (some 7)).2 (by decide)
    rcases h.2 with ⟨_, _, heq⟩ | habs
    · exact heq
    · exact absurd habs (by decide)

theorem length_filter_id_add_length_filter_not (l : List Bool) :
    (l.filter (fun b => b)).length + (l.filter (fun b => !b)).length = l.length := by
  induction l with
  | nil => rfl
  | cons a t ih => cases a <;> simp [List.filter_cons] <;> omega

theorem execute_sequential_le (strategy : RecoveryStrategy) (outcomes : List Bool) :
    (execute_sequential strategy outcomes).1 + (execute_sequential strategy outcomes).2 ≤
      outcomes.length := by
  induction outcomes with
  | nil => simp [execute_sequential]
  | cons a t ih =>
    cases a
    · by_cases h : strategy = RecoveryStrategy.FAIL_FAST
      · simp [execute_sequential, h]
        try omega
      · simp [execute_sequential, h]
        try omega
    · simp [execute_sequential]
      try omega

theorem execute_sequential_eq (strategy : RecoveryStrategy) (outcomes : List Bool)
    (h : strategy ≠ RecoveryStrategy.FAIL_FAST) :
    (execute_sequential strategy outcomes).1 + (execute_sequential strategy outcomes).2 =
      outcomes.length := by
  induction outcomes with
  | nil => rfl
  | cons a t ih =>
    cases a
    · simp [execute_sequential, h]; omega
    · simp [execute_sequential]; omega

theorem execute_parallel_le (strategy : RecoveryStrategy) (levels : List (List Bool)) :
    (execute_parallel strategy levels).1 + (execute_parallel strategy levels).2 ≤
      (levels.map List.length).sum := by
  induction levels with
  | nil => simp [execute_parallel]
  | cons lvl rest ih =>
    have hlvl := length_filter_id_add_length_filter_not lvl
    by_cases h : strategy = RecoveryStrategy.FAIL_FAST ∧
        (lvl.filter (fun b => !b)).length ≠ 0
    · simp only [execute_parallel, if_pos h, List.map_cons, List.sum_cons]
      omega
    · simp only [execute_parallel, if_neg h, List.map_cons, List.sum_cons]
      omega

theorem execute_parallel_eq (strategy : RecoveryStrategy) (levels : List (List Bool))
    (h : strategy ≠ RecoveryStrategy.FAIL_FAST) :
    (execute_parallel strategy levels).1 + (execute_parallel strategy levels).2 =
      (levels.map List.length).sum := by
  induction levels with
  | nil => rfl
  | cons lvl rest ih =>
    have hlvl := length_filter_id_add_length_filter_not lvl
    have hcond : ¬ (strategy = RecoveryStrategy.FAIL_FAST ∧
        (lvl.filter (fun b => !b)).length ≠ 0) := by
      intro hc; exact h hc.1
    simp only [execute_parallel, if_neg hcond, List.map_cons, List.sum_cons]
    omega

/-- Claim C6, counterexample: a two-task workflow executed sequentially under
`FAIL_FAST` whose first task fails stops immediately: the result counts
`completed = 0, failed = 1`, and `0 + 1 ≠ 2` tasks. -/
theorem execution_counts_counterexample :
    execute_sequential RecoveryStrategy.FAIL_FAST [false, true] = (0, 1) ∧
    (execute_sequential RecoveryStrategy.FAIL_FAST [false, true]).1 +
      (execute_sequential RecoveryStrategy.FAIL_FAST [false, true]).2 ≠
      ([false, true] : List Bool).length := by
  constructor <;> decide

/-- Claim C6 (amended): in both sequential and parallel execution,
`completed_tasks + failed_tasks ≤ total tasks` always, with equality for
every recovery strategy other than `FAIL_FAST` (under `FAIL_FAST` the early
break leaves unattempted tasks counted in neither bucket). -/
theorem execution_counts_spec (strategy : RecoveryStrategy) (outcomes : List Bool)
    (levels : List (List Bool)) :
    ((execute_sequential strategy outcomes).1 + (execute_sequential strategy outcomes).2 ≤
      outcomes.length) ∧
    ((execute_parallel strategy levels).1 + (execute_parallel strategy levels).2 ≤
      (levels.map List.length).sum) ∧
    (strategy ≠ RecoveryStrategy.FAIL_FAST →
      (execute_sequential strategy outcomes).1 + (execute_sequential strategy outcomes).2 =
        outcomes.length ∧
      (execute_parallel strategy levels).1 + (execute_parallel strategy levels).2 =
        (levels.map List.length).sum) :=
  ⟨execute_sequential_le strategy outcomes, execute_parallel_le strategy levels,
    fun h => ⟨execute_sequential_eq strategy outcomes h, execute_parallel_eq strategy levels h⟩⟩

/-- Witness for the amended C6 theorem: under the `CONTINUE` strategy a
three-task workflow with one failure still accounts for every task. -/
theorem execution_counts_spec_witness :
    (execute_sequential RecoveryStrategy.CONTINUE [true, false, true]).1 +
      (execute_sequential RecoveryStrategy.CONTINUE [true, false, true]).2 =
      ([true, false, true] : List Bool).length ∧
    (execute_parallel RecoveryStrategy.CONTINUE [[true, false], [true]]).1 +
      (execute_parallel RecoveryStrategy.CONTINUE [[true, false], [true]]).2 =
      (([[true, false], [true]] : List (List Bool)).map List.length).sum :=
  (execution_counts_spec RecoveryStrategy.CONTINUE [true, false, true]
    [[true, false], [true]]).2.2 (by decide)

theorem length_filter_le_of_imp {α : Type} (l : List α) (p q : α → Bool)
    (h : ∀ x ∈ l, p x = true → q x = true) :
    (l.filter p).length ≤ (l.filter q).length := by
  induction l with
  | nil => simp
  | cons a t ih =>
    have ht : ∀ x ∈ t, p x = true → q x = true := fun x hx => h x (List.mem_cons_of_mem a hx)
    have iht := ih ht
    cases hp : p a
    · cases hq : q a <;> simp [List.filter_cons, hp, hq] <;> omega
    · have hqa := h a (List.mem_cons_self a t) hp
      simp [List.filter_cons, hp, hqa]
      omega

theorem length_filter_lt_of_imp {α : Type} (l : List α) (p q : α → Bool)
    (h : ∀ x ∈ l, p x = true → q x = true) (e : α) (he : e ∈ l)
    (hqe : q e = true) (hpe : p e = false) :
    (l.filter p).length < (l.filter q).length := by
  induction l with
  | nil => cases he
  | cons a t ih =>
    have ht : ∀ x ∈ t, p x = true → q x = true := fun x hx => h x (List.mem_cons_of_mem a hx)
    rcases List.mem_cons.mp he with rfl | het
    · have hle := length_filter_le_of_imp t p q ht
      simp [List.filter_cons, hpe, hqe]
      omega
    · have iht := ih ht het
      cases hp : p a
      · cases hq : q a <;> simp [List.filter_cons, hp, hq] <;> omega
      · have hqa := h a (List.mem_cons_self a t) hp
        simp [List.filter_cons, hp, hqa]
        omega

/-- Claim C7: the queue position computed by `_calculate_queue_position` is
one plus the number of pending entries on the same service with strictly
higher priority (numerically smaller) or equal priority and earlier
creation; consequently, over a common queue snapshot, a pending entry that
precedes another in the `(priority, created_at)` order receives a strictly
smaller queue position. -/
theorem queue_position_consistent (entries : List WorkflowExecutionQueue)
    (e1 e2 : WorkflowExecutionQueue) (h1 : e1 ∈ entries)
    (hp1 : e1.status = QueueStatus.PENDING)
    (hsvc : e1.assigned_service_id = e2.assigned_service_id)
    (hlt : e1.priority < e2.priority ∨
      (e1.priority = e2.priority ∧ e1.created_at < e2.created_at)) :
    calculate_queue_position entries e1 < calculate_queue_position entries e2 := by
  unfold calculate_queue_position
  have key : ∀ x ∈ entries,
      decide (x.assigned_service_id = e1.assigned_service_id ∧
        x.status = QueueStatus.PENDING ∧
        (x.priority < e1.priority ∨
          (x.priority = e1.priority ∧ x.created_at < e1.created_at))) = true →
      decide (x.assigned_service_id = e2.assigned_service_id ∧
        x.status = QueueStatus.PENDING ∧
        (x.priority < e2.priority ∨
          (x.priority = e2.priority ∧ x.created_at < e2.created_at))) = true := by
    intro x _ hx
    rw [decide_eq_true_eq] at hx ⊢
    refine ⟨hsvc ▸ hx.1, hx.2.1, ?_⟩
    rcases hx.2.2 with ha | ⟨ha, hb⟩ <;> rcases hlt with hc | ⟨hc, hd⟩
    · left; omega
    · left; omega
    · left; omega
    · right; omega
  have he2 : decide (e1.assigned_service_id = e2.assigned_service_id ∧
      e1.status = QueueStatus.PENDING ∧
      (e1.priority < e2.priority ∨
        (e1.priority = e2.priority ∧ e1.created_at < e2.created_at))) = true := by
    rw [decide_eq_true_eq]
    exact ⟨hsvc, hp1, hlt⟩
  have he1 : decide (e1.assigned_service_id = e1.assigned_service_id ∧
      e1.status = QueueStatus.PENDING ∧
      (e1.priority < e1.priority ∨
        (e1.priority = e1.priority ∧ e1.created_at < e1.created_at))) = false := by
    rw [decide_eq_false_iff_not]
    intro hx
    rcases hx.2.2 with ha | ⟨_, hb⟩ <;> omega
  have := length_filter_lt_of_imp entries _ _ key e1 h1 he2 he1
  omega

/-- Witness for C7 at a concrete queue snapshot: two pending entries on the
same service with priorities `1` and `5` get positions `1` and `2`. -/
theorem queue_position_consistent_witness :
    calculate_queue_position
        [⟨10, 3, 1, 100, QueueStatus.PENDING⟩, ⟨11, 3, 5, 90, QueueStatus.PENDING⟩]
        ⟨10, 3, 1, 100, QueueStatus.PENDING⟩ <
      calculate_queue_position
        [⟨10, 3, 1, 100, QueueStatus.PENDING⟩, ⟨11, 3, 5, 90, QueueStatus.PENDING⟩]
        ⟨11, 3, 5, 90, QueueStatus.PENDING⟩ :=
  queue_position_consistent _ _ _ (by decide) (by decide) (by decide) (by decide)

theorem depthBounded_mono {deps : ℕ → List ℕ} {t n : ℕ} (h : DepthBounded deps t n)
    {m : ℕ} (hnm : n ≤ m) : DepthBounded deps t m := by
  induction h generalizing m with
  | mk t n hp ih =>
    obtain ⟨m', rfl⟩ : ∃ m', m = m' + 1 := ⟨m - 1, by omega⟩
    exact DepthBounded.mk t m' (fun p hpm => ih p hpm (by omega))

theorem depthBounded_of_mem {deps : ℕ → List ℕ} {t n p : ℕ} (h : DepthBounded deps t n)
    (hp : p ∈ deps t) : DepthBounded deps p n := by
  cases h with
  | mk _ n' hall => exact depthBounded_mono (hall p hp) (by omega)

theorem foldl_max_congr (l : List ℕ) (f g : ℕ → ℕ) (a : ℕ) (h : ∀ x ∈ l, f x = g x) :
    l.foldl (fun acc p => Nat.max acc (f p)) a = l.foldl (fun acc p => Nat.max acc (g p)) a := by
  induction l generalizing a with
  | nil => rfl
  | cons x xs ih =>
    simp only [List.foldl_cons]
    rw [h x (List.mem_cons_self x xs)]
    exact ih _ (fun y hy => h y (List.mem_cons_of_mem x hy))

theorem le_foldl_max_init (l : List ℕ) (f : ℕ → ℕ) (a : ℕ) :
    a ≤ l.foldl (fun acc p => Nat.max acc (f p)) a := by
  induction l generalizing a with
  | nil => exact le_rfl
  | cons x xs ih =>
    simp only [List.foldl_cons]
    exact le_trans (Nat.le_max_left a (f x)) (ih _)

theorem le_foldl_max_of_mem (l : List ℕ) (f : ℕ → ℕ) (p : ℕ) (hp : p ∈ l) :
    ∀ a, f p ≤ l.foldl (fun acc q => Nat.max acc (f q)) a := by
  induction l with
  | nil => cases hp
  | cons x xs ih =>
    intro a
    simp only [List.foldl_cons]
    rcases List.mem_cons.mp hp with rfl | hmem
    · exact le_trans (Nat.le_max_right a (f p)) (le_foldl_max_init xs f _)
    · exact ih hmem _

theorem calculate_level_stable {deps : ℕ → List ℕ} {t n : ℕ}
    (h : DepthBounded deps t n) :
    ∀ f, n ≤ f → calculate_level deps f t = calculate_level deps n t := by
  induction h with
  | mk t n hp ih =>
    intro f hf
    obtain ⟨f', rfl⟩ : ∃ f', f = f' + 1 := ⟨f - 1, by omega⟩
    cases hd : deps t with
    | nil => simp [calculate_level, hd]
    | cons d ds =>
      have hdmem : d ∈ deps t := by rw [hd]; exact List.mem_cons_self d ds
      have hds : ∀ p ∈ ds, p ∈ deps t := by
        intro p hpm; rw [hd]; exact List.mem_cons_of_mem d hpm
      simp only [calculate_level, hd]
      rw [ih d hdmem f' (by omega),
        foldl_max_congr ds (calculate_level deps f') (calculate_level deps n) _
          (fun p hpm => ih p (hds p hpm) f' (by omega))]

theorem calculate_level_edge_lt {deps : ℕ → List ℕ} {t n p f : ℕ}
    (h : DepthBounded deps t n) (hf : n ≤ f) (hp : p ∈ deps t) :
    calculate_level deps f p < calculate_level deps f t := by
  cases h with
  | mk _ n' hall =>
    obtain ⟨f', rfl⟩ : ∃ f', f = f' + 1 := ⟨f - 1, by omega⟩
    have hbp : DepthBounded deps p n' := hall p hp
    have hstep : calculate_level deps (f' + 1) p = calculate_level deps f' p := by
      rw [calculate_level_stable hbp (f' + 1) (by omega),
        calculate_level_stable hbp f' (by omega)]
    rw [hstep]
    cases hd : deps t with
    | nil => rw [hd] at hp; cases hp
    | cons d ds =>
      rw [hd] at hp
      simp only [calculate_level, hd]
      rcases List.mem_cons.mp hp with rfl | hmem
      · have := le_foldl_max_init ds (calculate_level deps f') (calculate_level deps f' p)
        omega
      · have := le_foldl_max_of_mem ds (calculate_level deps f') p hmem
          (calculate_level deps f' d)
        omega

theorem depthBounded_chain {deps : ℕ → List ℕ} {k n : ℕ} {c : ℕ → ℕ}
    (hb : DepthBounded deps (c k) n) (hc : ∀ i, i < k → c i ∈ deps (c (i + 1))) :
    ∀ i, i ≤ k → DepthBounded deps (c i) n := by
  have key : ∀ j, j ≤ k → DepthBounded deps (c (k - j)) n := by
    intro j
    induction j with
    | zero => intro _; simpa using hb
    | succ j ih =>
      intro hj
      have hbj := ih (by omega)
      have h1 : k - (j + 1) < k := by omega
      have h2 : (k - (j + 1)) + 1 = k - j := by omega
      have hmem := hc (k - (j + 1)) h1
      rw [h2] at hmem
      exact depthBounded_of_mem hbj hmem
  intro i hi
  have := key (k - i) (by omega)
  have h3 : k - (k - i) = i := by omega
  rwa [h3] at this

theorem calculate_level_no_deps (deps : ℕ → List ℕ) (h : ∀ u, deps u = [])
    (fuel t : ℕ) : calculate_level deps fuel t = 0 := by
  cases fuel with
  | zero => rfl
  | succ f => simp [calculate_level, h t]

theorem calculate_level_cons (deps : ℕ → List ℕ) (f t d : ℕ) (ds : List ℕ)
    (hd : deps t = d :: ds) :
    calculate_level deps (f + 1) t =
      1 + ds.foldl (fun acc p => Nat.max acc (calculate_level deps f p))
        (calculate_level deps f d) := by
  simp only [calculate_level, hd]

/-- Claim C5: over a dependency map whose chains out of `t` are bounded (the
acyclicity bound under which the Python recursion terminates), and fuel at
least that bound, `calculate_level` assigns level `0` to a task with no
prerequisites and `1 + max` of the prerequisite levels otherwise (at the
same fuel); a workflow with no dependencies has every task at level `0`; and
along any prerequisite chain ending at `t` the levels strictly increase, so
a task with `k` sequential ancestors has level at least `k`. -/
theorem dependency_level_spec (deps : ℕ → List ℕ) (fuel n t : ℕ)
    (hb : DepthBounded deps t n) (hf : n ≤ fuel) :
    (deps t = [] → calculate_level deps fuel t = 0) ∧
    (∀ d ds, deps t = d :: ds →
      calculate_level deps fuel t =
        1 + ds.foldl (fun acc p => Nat.max acc (calculate_level deps fuel p))
          (calculate_level deps fuel d)) ∧
    ((∀ u, deps u = []) → calculate_level deps fuel t = 0) ∧
    (∀ (k : ℕ) (c : ℕ → ℕ), c k = t → (∀ i, i < k → c i ∈ deps (c (i + 1))) →
      (∀ i, i < k →
        calculate_level deps fuel (c i) < calculate_level deps fuel (c (i + 1))) ∧
      k ≤ calculate_level deps fuel t) := by
  obtain ⟨n', rfl⟩ : ∃ n', n = n' + 1 := by cases hb with | mk _ m _ => exact ⟨m, rfl⟩
  obtain ⟨f', rfl⟩ : ∃ f', fuel = f' + 1 := ⟨fuel - 1, by omega⟩
  refine ⟨?_, ?_, ?_, ?_⟩
  · intro hd
    simp [calculate_level, hd]
  · intro d ds hd
    cases hb with
    | mk _ _ hall =>
      have hdmem : d ∈ deps t := by rw [hd]; exact List.mem_cons_self d ds
      have hds : ∀ p ∈ ds, p ∈ deps t := by
        intro p hpm; rw [hd]; exact List.mem_cons_of_mem d hpm
      have heq : ∀ p ∈ deps t,
          calculate_level deps f' p = calculate_level deps (f' + 1) p := by
        intro p hpm
        rw [calculate_level_stable (hall p hpm) f' (by omega),
          calculate_level_stable (hall p hpm) (f' + 1) (by omega)]
      rw [calculate_level_cons deps f' t d ds hd, heq d hdmem,
        foldl_max_congr ds (calculate_level deps f') (calculate_level deps (f' + 1)) _
          (fun p hpm => heq p (hds p hpm))]
  · intro hall
    exact calculate_level_no_deps deps hall _ t
  · intro k c hck hc
    have hbk : DepthBounded deps (c k) (n' + 1) := by rw [hck]; exact hb
    have hball := depthBounded_chain hbk hc
    have hedge : ∀ i, i < k →
        calculate_level deps (f' + 1) (c i) < calculate_level deps (f' + 1) (c (i + 1)) :=
      fun i hik => calculate_level_edge_lt (hball (i + 1) (by omega)) hf (hc i hik)
    refine ⟨hedge, ?_⟩
    have hmono : ∀ i, i ≤ k → i ≤ calculate_level deps (f' + 1) (c i) := by
      intro i
      induction i with
      | zero => intro _; exact Nat.zero_le _
      | succ i ih =>
        intro hik
        have h1 := ih (by omega)
        have h2 := hedge i (by omega)
        omega
    have := hmono k le_rfl
    rwa [hck] at this

/-- Witness for C5 at the concrete three-task chain `0 → 1 → 2`: the levels
are `0`, `1`, `2`, and the two-ancestor task reaches level `2`. -/
theorem dependency_level_spec_witness :
    calculate_level chainDeps 3 0 = 0 ∧
    calculate_level chainDeps 3 1 = 1 ∧
    calculate_level chainDeps 3 2 = 2 ∧
    2 ≤ calculate_level chainDeps 3 2 := by
  have hb0 : DepthBounded chainDeps 0 1 := by
    refine DepthBounded.mk 0 0 ?_
    intro p hp
    simp [chainDeps] at hp
  have hb1 : DepthBounded chainDeps 1 2 := by
    refine DepthBounded.mk 1 1 ?_
    intro p hp
    simp [chainDeps] at hp
    subst hp
    exact depthBounded_mono hb0 (by omega)
  have hb2 : DepthBounded chainDeps 2 3 := by
    refine DepthBounded.mk 2 2 ?_
    intro p hp
    simp [chainDeps] at hp
    subst hp
    exact hb1
  have h := dependency_level_spec chainDeps 3 3 2 hb2 le_rfl
  refine ⟨by decide, by decide, by decide, ?_⟩
  exact (h.2.2.2 2 (fun i => i) rfl (by decide)).2

/-- Claim C9: the code performs no cycle detection — on the two-task cycle
`1 ⇄ 2` the memoised recursion of `_group_tasks_by_dependency_level` never
reaches a task with no unfinished prerequisite, so the fuel-indexed
embedding grows without bound (`calculate_level cyclicDeps fuel 1 = fuel`
for every fuel), no depth bound exists under which the recursion
terminates, and no level assignment satisfies the recursion equation at
all: the cyclic input is not rejected, the computation diverges. -/
theorem cyclic_dependency_divergence :
    (∀ fuel, calculate_level cyclicDeps fuel 1 = fuel ∧
      calculate_level cyclicDeps fuel 2 = fuel) ∧
    (∀ n, ¬ DepthBounded cyclicDeps 1 n) ∧
    (¬ ∃ L : ℕ → ℕ, ∀ t d ds, cyclicDeps t = d :: ds →
      L t = 1 + ds.foldl (fun acc p => Nat.max acc (L p)) (L d)) := by
  refine ⟨?_, ?_, ?_⟩
  · intro fuel
    induction fuel with
    | zero => exact ⟨rfl, rfl⟩
    | succ f ih =>
      constructor
      · simp [calculate_level, cyclicDeps, ih.2]
        omega
      · simp [calculate_level, cyclicDeps, ih.1]
        omega
  · have key : ∀ n, ¬ DepthBounded cyclicDeps 1 n ∧ ¬ DepthBounded cyclicDeps 2 n := by
      intro n
      induction n with
      | zero => constructor <;> intro h <;> cases h
      | succ n ih =>
        constructor
        · intro h
          cases h with
          | mk _ _ hp => exact ih.2 (hp 2 (by simp [cyclicDeps]))
        · intro h
          cases h with
          | mk _ _ hp => exact ih.1 (hp 1 (by simp [cyclicDeps]))
    exact fun n => (key n).1
  · rintro ⟨L, hL⟩
    have h1 := hL 1 2 [] (by simp [cyclicDeps])
    have h2 := hL 2 1 [] (by simp [cyclicDeps])
    simp only [List.foldl_nil] at h1 h2
    omega

theorem rr_run_rotation (services : List ServiceV2) :
    ∀ (n : ℕ) (counters : List ℕ → Option ℕ) (k : ℕ),
      (counters (serviceKey services)).getD 0 = k →
      (rr_run counters services n).1 =
        (List.range n).map (fun i => services.get? ((k + i) % services.length)) := by
  intro n
  induction n with
  | zero => intro counters k hk; rfl
  | succ n ih =>
    intro counters k hk
    simp only [rr_run, round_robin_selection]
    rw [hk]
    have hupdate : (((fun k1 => if k1 = serviceKey services then some (k + 1) else counters k1) :
        List ℕ → Option ℕ) (serviceKey services)).getD 0 = k + 1 := by simp
    rw [ih _ (k + 1) hupdate, List.range_succ_eq_map, List.map_cons, List.map_map]
    congr 1
    refine List.map_congr_left ?_
    intro i _
    show services.get? ((k + 1 + i) % services.length) =
      services.get? ((k + (i + 1)) % services.length)
    rw [show k + 1 + i = k + (i + 1) from by omega]

theorem range_length_map_get? {α : Type} (l : List α) :
    (List.range l.length).map (fun i => l.get? i) = l.map some := by
  induction l with
  | nil => rfl
  | cons a t ih =>
    rw [List.length_cons, List.range_succ_eq_map, List.map_cons, List.map_map]
    have hcomp : ((fun i => (a :: t).get? i) ∘ Nat.succ) = fun i => t.get? i := by
      funext i; rfl
    rw [hcomp, ih]
    rfl

/-- Claim C8: with a fresh counter for the candidate set, `N` successive
round-robin selections over a constant candidate list of size `N` return
every candidate exactly once (in list order); and because the counter table
is keyed by the sorted candidate-id tuple, a selection over a candidate set
with a different key leaves this rotation's counter untouched. -/
theorem round_robin_cycle_spec (services : List ServiceV2)
    (counters : List ℕ → Option ℕ) :
    (counters (serviceKey services) = none →
      (rr_run counters services services.length).1 = services.map some) ∧
    (∀ other : List ServiceV2, serviceKey other ≠ serviceKey services →
      (round_robin_selection counters other).2 (serviceKey services) =
        counters (serviceKey services)) := by
  constructor
  · intro hfresh
    have h0 : (counters (serviceKey services)).getD 0 = 0 := by rw [hfresh]; rfl
    rw [rr_run_rotation services services.length counters 0 h0]
    have hcongr : ∀ i ∈ List.range services.length,
        services.get? ((0 + i) % services.length) = services.get? i := by
      intro i hi
      rw [List.mem_range] at hi
      rw [Nat.zero_add, Nat.mod_eq_of_lt hi]
    rw [List.map_congr_left hcongr]
    exact range_length_map_get? services
  · intro other hne
    simp only [round_robin_selection]
    rw [if_neg (fun h => hne h.symm)]

/-- Witness for C8: two services with a fresh counter table are returned
once each by two successive round-robin selections, and a selection over a
disjoint candidate set does not touch their counter. -/
theorem round_robin_cycle_spec_witness :
    (rr_run (fun _ => none) [sampleService, { sampleService with id := 2 }] 2).1 =
      ([sampleService, { sampleService with id := 2 }] : List ServiceV2).map some ∧
    (round_robin_selection (fun _ => none) [{ sampleService with id := 9 }]).2
        (serviceKey [sampleService, { sampleService with id := 2 }]) = none := by
  constructor
  · exact (round_robin_cycle_spec [sampleService, { sampleService with id := 2 }]
      (fun _ => none)).1 rfl
  · refine (round_robin_cycle_spec [sampleService, { sampleService with id := 2 }]
      (fun _ => none)).2 [{ sampleService with id := 9 }] ?_
    intro h
    have hlen := congrArg List.length h
    simp only [serviceKey] at hlen
    rw [(List.mergeSort_perm _ _).length_eq, (List.mergeSort_perm _ _).length_eq] at hlen
    simp at hlen

theorem match_rate_nonneg (caps sc : Finset String) : 0 ≤ match_rate caps sc := by
  unfold match_rate
  split_ifs with h
  · norm_num
  · positivity

theorem match_rate_le_one (caps sc : Finset String) : match_rate caps sc ≤ 1 := by
  unfold match_rate
  split_ifs with h
  · exact le_refl 1
  · have hne : caps.Nonempty := Finset.nonempty_iff_ne_empty.mpr h
    have hc : 0 < (caps.card : ℚ) := by exact_mod_cast Finset.card_pos.mpr hne
    rw [div_le_one hc]
    exact_mod_cast Finset.card_le_card Finset.inter_subset_left

theorem match_rate_of_subset {caps sc : Finset String} (h : caps ⊆ sc) :
    match_rate caps sc = 1 := by
  unfold match_rate
  split_ifs with he
  · rfl
  · have hne : caps.Nonempty := Finset.nonempty_iff_ne_empty.mpr he
    rw [Finset.inter_eq_left.mpr h]
    have hc : (0 : ℚ) < (caps.card : ℚ) := by exact_mod_cast Finset.card_pos.mpr hne
    exact div_self (ne_of_gt hc)

theorem determine_match_quality_tiers (r o : ℚ) (_hr : r ≤ 1) (ho : o ≤ 1) :
    (determine_match_quality r o = MatchQuality.INCOMPATIBLE ↔ r < 4/5) ∧
    (determine_match_quality r o = MatchQuality.POOR ↔ 4/5 ≤ r ∧ r < 1) ∧
    (r = 1 →
      (determine_match_quality r o = MatchQuality.PERFECT ↔ o = 1) ∧
      (determine_match_quality r o = MatchQuality.EXCELLENT ↔ 4/5 ≤ o ∧ o < 1) ∧
      (determine_match_quality r o = MatchQuality.GOOD ↔ 1/2 ≤ o ∧ o < 4/5) ∧
      (determine_match_quality r o = MatchQuality.ADEQUATE ↔ o < 1/2)) := by
  unfold determine_match_quality
  split_ifs with h1 h2 h3 h4 h5
  · refine ⟨by simp [h1], ?_, ?_⟩
    · constructor
      · intro h; exact absurd h (by decide)
      · intro h; exfalso; linarith [h.1]
    · intro hr1; exfalso; linarith
  · refine ⟨?_, ?_, ?_⟩
    · constructor
      · intro h; exact absurd h (by decide)
      · intro h; exact absurd h h1
    · constructor
      · intro _; exact ⟨not_lt.mp h1, h2⟩
      · intro _; rfl
    · intro hr1; exfalso; linarith
  · refine ⟨?_, ?_, ?_⟩
    · constructor
      · intro h; exact absurd h (by decide)
      · intro h; exact absurd h h1
    · constructor
      · intro h; exact absurd h (by decide)
      · intro h; exact absurd h.2 h2
    · intro _
      refine ⟨by simp [h3], ?_, ?_, ?_⟩
      · constructor
        · intro h; exact absurd h (by decide)
        · intro h; exfalso; rw [h3] at h; linarith [h.2]
      · constructor
        · intro h; exact absurd h (by decide)
        · intro h; exfalso; rw [h3] at h; linarith [h.2]
      · constructor
        · intro h; exact absurd h (by decide)
        · intro h; exfalso; rw [h3] at h; linarith
  · refine ⟨?_, ?_, ?_⟩
    · constructor
      · intro h; exact absurd h (by decide)
      · intro h; exact absurd h h1
    · constructor
      · intro h; exact absurd h (by decide)
      · intro h; exact absurd h.2 h2
    · intro _
      refine ⟨?_, ?_, ?_, ?_⟩
      · constructor
        · intro h; exact absurd h (by decide)
        · intro h; exact absurd h h3
      · constructor
        · intro _; exact ⟨h4, lt_of_le_of_ne ho h3⟩
        · intro _; rfl
      · constructor
        · intro h; exact absurd h (by decide)
        · intro h; exfalso; linarith [h.2]
      · constructor
        · intro h; exact absurd h (by decide)
        · intro h; exfalso; linarith
  · refine ⟨?_, ?_, ?_⟩
    · constructor
      · intro h; exact absurd h (by decide)
      · intro h; exact absurd h h1
    · constructor
      · intro h; exact absurd h (by decide)
      · intro h; exact absurd h.2 h2
    · intro _
      refine ⟨?_, ?_, ?_, ?_⟩
      · constructor
        · intro h; exact absurd h (by decide)
        · intro h; exact absurd h h3
      · constructor
        · intro h; exact absurd h (by decide)
        · intro h; exact absurd h.1 h4
      · constructor
        · intro _; exact ⟨h5, not_le.mp h4⟩
        · intro _; rfl
      · constructor
        · intro h; exact absurd h (by decide)
        · intro h; exfalso; linarith
  · refine ⟨?_, ?_, ?_⟩
    · constructor
      · intro h; exact absurd h (by decide)
      · intro h; exact absurd h h1
    · constructor
      · intro h; exact absurd h (by decide)
      · intro h; exact absurd h.2 h2
    · intro _
      refine ⟨?_, ?_, ?_, ?_⟩
      · constructor
        · intro h; exact absurd h (by decide)
        · intro h; exact absurd h h3
      · constructor
        · intro h; exact absurd h (by decide)
        · intro h; exact absurd h.1 h4
      · constructor
        · intro h; exact absurd h (by decide)
        · intro h; exact absurd h.1 h5
      · constructor
        · intro _; exact not_le.mp h5
        · intro _; rfl

/-- Claim C2: the match quality of `_determine_match_quality` on the rates
computed by `_calculate_match_score` is `INCOMPATIBLE` iff
`required_match_rate < 0.8`, `POOR` iff `0.8 ≤ required_match_rate < 1.0`,
and at `required_match_rate = 1.0` it tiers on the optional rate
(`PERFECT` iff `1.0`, `EXCELLENT` iff `≥ 0.8` short of perfect, `GOOD` iff
`≥ 0.5`, else `ADEQUATE`); when the required capabilities are a subset of
the service's capabilities the required rate is `1.0` and the quality is
never `INCOMPATIBLE`. -/
theorem match_quality_tiering (s : ServiceV2) (requirements : TaskRequirements) :
    ((calculate_match_score s requirements).quality = MatchQuality.INCOMPATIBLE ↔
      (calculate_match_score s requirements).required_match_rate < 4/5) ∧
    ((calculate_match_score s requirements).quality = MatchQuality.POOR ↔
      4/5 ≤ (calculate_match_score s requirements).required_match_rate ∧
        (calculate_match_score s requirements).required_match_rate < 1) ∧
    ((calculate_match_score s requirements).required_match_rate = 1 →
      ((calculate_match_score s requirements).quality = MatchQuality.PERFECT ↔
        (calculate_match_score s requirements).optional_match_rate = 1) ∧
      ((calculate_match_score s requirements).quality = MatchQuality.EXCELLENT ↔
        4/5 ≤ (calculate_match_score s requirements).optional_match_rate ∧
          (calculate_match_score s requirements).optional_match_rate < 1) ∧
      ((calculate_match_score s requirements).quality = MatchQuality.GOOD ↔
        1/2 ≤ (calculate_match_score s requirements).optional_match_rate ∧
          (calculate_match_score s requirements).optional_match_rate < 4/5) ∧
      ((calculate_match_score s requirements).quality = MatchQuality.ADEQUATE ↔
        (calculate_match_score s requirements).optional_match_rate < 1/2)) ∧
    (requirements.required_capabilities.toFinset ⊆ s.capabilities.toFinset →
      (calculate_match_score s requirements).required_match_rate = 1 ∧
      (calculate_match_score s requirements).quality ≠ MatchQuality.INCOMPATIBLE) := by
  have hrle := match_rate_le_one requirements.required_capabilities.toFinset
    s.capabilities.toFinset
  have hole := match_rate_le_one requirements.optional_capabilities.toFinset
    s.capabilities.toFinset
  have htiers := determine_match_quality_tiers
    (match_rate requirements.required_capabilities.toFinset s.capabilities.toFinset)
    (match_rate requirements.optional_capabilities.toFinset s.capabilities.toFinset)
    hrle hole
  refine ⟨htiers.1, htiers.2.1, htiers.2.2, ?_⟩
  intro hsub
  have hone : match_rate requirements.required_capabilities.toFinset
      s.capabilities.toFinset = 1 := match_rate_of_subset hsub
  refine ⟨hone, ?_⟩
  intro hq
  have := htiers.1.mp hq
  rw [hone] at this
  linarith

/-- Witness for C2: a service with capabilities `{hplc, uv_detector}`
covering the required set `{hplc}` has required rate `1` and a quality
other than `INCOMPATIBLE`. -/
theorem match_quality_tiering_witness :
    (calculate_match_score
        { sampleService with capabilities := ["hplc", "uv_detector"] }
        { task_type := "HPLC Analysis", required_capabilities := ["hplc"],
          optional_capabilities := ["autosampler"] }).required_match_rate = 1 ∧
    (calculate_match_score
        { sampleService with capabilities := ["hplc", "uv_detector"] }
        { task_type := "HPLC Analysis", required_capabilities := ["hplc"],
          optional_capabilities := ["autosampler"] }).quality ≠
      MatchQuality.INCOMPATIBLE :=
  (match_quality_tiering
    { sampleService with capabilities := ["hplc", "uv_detector"] }
    { task_type := "HPLC Analysis", required_capabilities := ["hplc"],
      optional_capabilities := ["autosampler"] }).2.2.2
    (by simp [Finset.insert_subset_iff])

theorem capability_weights_pos (cap : String) : 0 < capability_weights cap := by
  unfold capability_weights
  cases h : capability_weights_table.find? (fun p => p.1 = cap) with
  | none => norm_num
  | some p =>
    have hp := List.mem_of_find?_eq_some h
    have hall : ∀ q ∈ capability_weights_table, 0 < q.2 := by
      intro q hq
      fin_cases hq <;> norm_num [capability_weights_table]
    exact hall p hp

theorem matchScoreDescLe_trans (a b c : MatchScore)
    (hab : matchScoreDescLe a b) (hbc : matchScoreDescLe b c) :
    matchScoreDescLe a c = true := by
  simp only [matchScoreDescLe, decide_eq_true_eq] at hab hbc ⊢
  rcases hab with h | ⟨h, h'⟩ <;> rcases hbc with g | ⟨g, g'⟩
  · left; linarith
  · left; linarith
  · left; linarith
  · right; exact ⟨by linarith, le_trans g' h'⟩

theorem matchScoreDescLe_total (a b : MatchScore) :
    matchScoreDescLe a b || matchScoreDescLe b a := by
  simp only [matchScoreDescLe, Bool.or_eq_true, decide_eq_true_eq]
  rcases lt_trichotomy a.score b.score with h | h | h
  · right; left; exact h
  · rcases le_total b.confidence a.confidence with hc | hc
    · left; right; exact ⟨h.symm, hc⟩
    · right; right; exact ⟨h, hc⟩
  · left; left; exact h

/-- Claim C3: `match_capabilities` scores every candidate with
`_calculate_match_score` (so the output is a permutation of the per-service
scores), the output is sorted descending by `(score, confidence)`, and the
computed score equals the claimed formula
`(0.8·required_rate + 0.2·optional_rate) · (Σ weight(matched) / Σ
weight(requested))` with default weight `0.5` and rate `1.0` on empty
requirement sets. -/
theorem match_capabilities_spec (requirements : TaskRequirements)
    (services : List ServiceV2) :
    (match_capabilities requirements services).Perm
      (services.map (fun s => calculate_match_score s requirements)) ∧
    (match_capabilities requirements services).Pairwise
      (fun a b => b.score < a.score ∨
        (b.score = a.score ∧ b.confidence ≤ a.confidence)) ∧
    (∀ s : ServiceV2,
      (calculate_match_score s requirements).score = specScore s requirements) := by
  refine ⟨List.mergeSort_perm _ _, ?_, ?_⟩
  · have hp := @List.sorted_mergeSort MatchScore matchScoreDescLe
      matchScoreDescLe_trans matchScoreDescLe_total
      (services.map (fun s => calculate_match_score s requirements))
    exact hp.imp (fun {a b} h => by
      simpa [matchScoreDescLe, decide_eq_true_eq] using h)
  · intro s
    simp only [calculate_match_score, specScore, apply_capability_weights]
    by_cases hU : requirements.required_capabilities.toFinset ∪
        requirements.optional_capabilities.toFinset = ∅
    · rw [if_pos hU, if_pos hU]
      ring
    · rw [if_neg hU, if_neg hU]
      have hne : (requirements.required_capabilities.toFinset ∪
          requirements.optional_capabilities.toFinset).Nonempty :=
        Finset.nonempty_iff_ne_empty.mpr hU
      have htot : 0 < (requirements.required_capabilities.toFinset ∪
          requirements.optional_capabilities.toFinset).sum capability_weights :=
        Finset.sum_pos (fun i _ => capability_weights_pos i) hne
      rw [if_pos htot]
      ring

/-- Witness for C3 at a concrete input: the score of a service with
capability `hplc` against required `{hplc}` and optional `{autosampler}`
equals the claimed formula's value. -/
theorem match_capabilities_spec_witness :
    (calculate_match_score { sampleService with capabilities := ["hplc"] }
        { task_type := "HPLC Analysis", required_capabilities := ["hplc"],
          optional_capabilities := ["autosampler"] }).score =
      specScore { sampleService with capabilities := ["hplc"] }
        { task_type := "HPLC Analysis", required_capabilities := ["hplc"],
          optional_capabilities := ["autosampler"] } :=
  (match_capabilities_spec
    { task_type := "HPLC Analysis", required_capabilities := ["hplc"],
      optional_capabilities := ["autosampler"] }
    [{ sampleService with capabilities := ["hplc"] }]).2.2
    { sampleService with capabilities := ["hplc"] }

theorem minBy_mem {α β : Type} [LinearOrder β] (f : α → β) (a : α) (l : List α) :
    minBy f a l ∈ a :: l := by
  induction l generalizing a with
  | nil => simp [minBy]
  | cons x xs ih =>
    simp only [minBy]
    split_ifs with h
    · rcases List.mem_cons.mp (ih x) with h1 | h1
      · rw [h1]; exact List.mem_cons_of_mem a (List.mem_cons_self x xs)
      · exact List.mem_cons_of_mem a (List.mem_cons_of_mem x h1)
    · rcases List.mem_cons.mp (ih a) with h1 | h1
      · rw [h1]; exact List.mem_cons_self a (x :: xs)
      · exact List.mem_cons_of_mem a (List.mem_cons_of_mem x h1)

theorem maxBy_mem {α β : Type} [LinearOrder β] (f : α → β) (a : α) (l : List α) :
    maxBy f a l ∈ a :: l := by
  induction l generalizing a with
  | nil => simp [maxBy]
  | cons x xs ih =>
    simp only [maxBy]
    split_ifs with h
    · rcases List.mem_cons.mp (ih x) with h1 | h1
      · rw [h1]; exact List.mem_cons_of_mem a (List.mem_cons_self x xs)
      · exact List.mem_cons_of_mem a (List.mem_cons_of_mem x h1)
    · rcases List.mem_cons.mp (ih a) with h1 | h1
      · rw [h1]; exact List.mem_cons_self a (x :: xs)
      · exact List.mem_cons_of_mem a (List.mem_cons_of_mem x h1)

theorem firstPreferred_mem (ids : List ℕ) (services : List ServiceV2) (s : ServiceV2)
    (h : firstPreferred ids services = some s) : s ∈ services := by
  unfold firstPreferred at h
  induction ids with
  | nil => simp at h
  | cons i ids ih =>
    rw [List.findSome?_cons] at h
    cases hf : services.reverse.find? (fun x => decide (x.id = i)) with
    | some x =>
      rw [hf] at h
      cases h
      exact List.mem_reverse.mp (List.mem_of_find?_eq_some hf)
    | none =>
      rw [hf] at h
      exact ih h

theorem capability_weighted_selection_mem (a : ServiceV2) (rest : List ServiceV2)
    (ctx : Option TaskContext) :
    capability_weighted_selection a rest ctx ∈ a :: rest := by
  cases ctx with
  | none =>
    simp only [capability_weighted_selection]
    exact List.mem_cons_self a rest
  | some c =>
    cases hr : c.required_capabilities with
    | none =>
      simp only [capability_weighted_selection, hr]
      exact List.mem_cons_self a rest
    | some req =>
      simp only [capability_weighted_selection, hr]
      exact maxBy_mem _ a rest

theorem user_preference_selection_mem (a : ServiceV2) (rest : List ServiceV2)
    (ctx : Option TaskContext) (prefs : Option (List ℕ)) :
    user_preference_selection a rest ctx prefs ∈ a :: rest := by
  cases ctx with
  | none =>
    simp only [user_preference_selection]
    exact List.mem_cons_self a rest
  | some c =>
    cases hu : c.user_id with
    | none =>
      simp only [user_preference_selection, hu]
      exact List.mem_cons_self a rest
    | some u =>
      cases prefs with
      | none =>
        simp only [user_preference_selection, hu]
        exact minBy_mem _ a rest
      | some ids =>
        simp only [user_preference_selection, hu]
        split_ifs with h
        · exact minBy_mem _ a rest
        · cases hf : firstPreferred ids (a :: rest) with
          | some s => simpa using firstPreferred_mem ids (a :: rest) s hf
          | none => simpa using minBy_mem ServiceV2.get_load_percentage a rest

theorem round_robin_getD_mem (counters : List ℕ → Option ℕ) (a : ServiceV2)
    (rest : List ServiceV2) :
    ((round_robin_selection counters (a :: rest)).1).getD a ∈ a :: rest := by
  simp only [round_robin_selection]
  cases hg : (a :: rest).get?
      (((counters (serviceKey (a :: rest))).getD 0) % (a :: rest).length) with
  | none => simp
  | some x => simpa using List.get?_mem hg

/-- Claim C10: `load_balance_selection` returns `None` exactly when no
candidate is available (in particular on an empty candidate list), and any
returned service is one of the candidates and was available at selection
time — under every load-balancing strategy. -/
theorem load_balance_selection_spec (counters : List ℕ → Option ℕ)
    (candidates : List ServiceV2) (strategy : LoadBalancingStrategy)
    (ctx : Option TaskContext) (prefs : Option (List ℕ)) :
    (load_balance_selection counters candidates strategy ctx prefs = none ↔
      candidates.filter ServiceV2.is_available = []) ∧
    (∀ s, load_balance_selection counters candidates strategy ctx prefs = some s →
      s ∈ candidates ∧ s.is_available = true) := by
  unfold load_balance_selection
  by_cases hc : candidates = []
  · rw [if_pos hc]
    subst hc
    constructor
    · simp
    · intro s h
      exact Option.noConfusion h
  · rw [if_neg hc]
    cases hf : candidates.filter ServiceV2.is_available with
    | nil =>
      constructor
      · simp
      · intro s h
        exact Option.noConfusion h
    | cons a rest =>
      have hmem : ∀ x ∈ a :: rest, x ∈ candidates ∧ x.is_available = true := by
        intro x hx
        rw [← hf] at hx
        exact ⟨(List.mem_filter.mp hx).1, (List.mem_filter.mp hx).2⟩
      constructor
      · constructor
        · intro h
          exact Option.noConfusion h
        · intro h
          exact List.noConfusion h
      · intro s h
        obtain rfl : _ = s := Option.some.inj h
        cases strategy
        · exact hmem _ (round_robin_getD_mem counters a rest)
        · exact hmem _ (minBy_mem _ a rest)
        · exact hmem _ (minBy_mem _ a rest)
        · exact hmem _ (capability_weighted_selection_mem a rest ctx)
        · exact hmem _ (minBy_mem _ a rest)
        · exact hmem _ (user_preference_selection_mem a rest ctx prefs)

/-- Witness for C10: a single online under-capacity candidate is selected
(and is a member of the candidates, available), and a single offline
candidate yields `None`. -/
theorem load_balance_selection_spec_witness :
    (sampleService ∈ [sampleService] ∧ sampleService.is_available = true) ∧
    load_balance_selection (fun _ => none)
      [{ sampleService with status := ServiceStatus.OFFLINE }]
      LoadBalancingStrategy.LEAST_LOADED none none = none :=
  ⟨(load_balance_selection_spec (fun _ => none) [sampleService]
      LoadBalancingStrategy.LEAST_LOADED none none).2 sampleService rfl,
   (load_balance_selection_spec (fun _ => none)
      [{ sampleService with status := ServiceStatus.OFFLINE }]
      LoadBalancingStrategy.LEAST_LOADED none none).1.mpr rfl⟩

end LafCore
